import Mathlib

/-!
Shallow embedding of the debug-control core `src/src/debugger/server/Debugger.js`
(class `DebugServer`) and proofs of the specified properties.

Conventions of the embedding:
* JavaScript strings are Lean `String`s; `path.replace(pat, "")` with a string
  pattern (which removes the first occurrence of `pat`) is modelled by
  `removeFirstL` on the underlying character lists.
* JavaScript truthiness of a possibly-absent string field (`undefined` and `""`
  are both falsy) is modelled by matching on `Option String` together with an
  emptiness test.
* The collaborating subsystems (`SteppingManager`, `BreakpointManager`,
  `StopEventManager`, `VariableManager`) and the channel are outside the given
  source; they are modelled as oracle functions (`Oracles`) and as an event
  trace (`Event`) recording every outbound message and collaborator call.
* `throw` of a `DebuggerError` or a failed `invariant` is modelled with
  explicit error values (`DebugError`), propagated functionally.
* The blocking channel read in `waitForRun` is modelled by consuming a list of
  pending requests; exhausting the list while still waiting models the
  indefinite block.
-/

/-- `start` position of a Babel source location: `{line, column}`. -/
structure Pos where
  line : Nat
  column : Nat
deriving DecidableEq, Repr

/-- `BabelNodeSourceLocation`: `{source, start}` (only the fields the debugger
reads). `source` is `null`/absent ⇒ `none`. -/
structure SrcLoc where
  source : Option String
  start : Pos
deriving DecidableEq, Repr

/-- A Babel AST node, reduced to the only field `checkForActions` reads. -/
structure BNode where
  loc : Option SrcLoc
deriving DecidableEq, Repr

/-- `SourceData`, the Last-Executed Marker: `{filePath, line, column, stackSize}`. -/
structure SourceData where
  filePath : String
  line : Nat
  column : Nat
  stackSize : Nat
deriving DecidableEq, Repr

/-- The four `Severity` values of `CompilerDiagnostic`s. -/
inductive Severity where
  | information
  | warning
  | recoverableError
  | fatalError
deriving DecidableEq, Repr

/-- Rank of a severity in the documented order
Information < Warning < RecoverableError < FatalError. -/
def sevRank : Severity → Nat
  | .information => 0
  | .warning => 1
  | .recoverableError => 2
  | .fatalError => 3

/-- `DebugServer.shouldStopForSeverity`, with the session threshold
(`this._diagnosticSeverity`) passed explicitly.  Direct transcription of the
`switch` in the source. -/
def shouldStopForSeverity (diagnosticSeverity severity : Severity) : Bool :=
  match diagnosticSeverity with
  | .information => true
  | .warning => severity != .information
  | .recoverableError => severity == .recoverableError || severity == .fatalError
  | .fatalError => severity == .fatalError

/-- Boolean test that the pattern `p` begins the list `s` (JS
`String.startsWith` semantics on character lists). -/
def startsWithL : List Char → List Char → Bool
  | [], _ => true
  | _ :: _, [] => false
  | p :: ps, c :: cs => p == c && startsWithL ps cs

/-- Removal of the first occurrence of `p` from `s`: the semantics of
JavaScript `s.replace(p, "")` with a string pattern `p`.  An empty pattern
matches at position 0 and removes nothing. -/
def removeFirstL (p : List Char) : List Char → List Char
  | [] => if startsWithL p [] then List.drop p.length [] else []
  | c :: cs =>
    if startsWithL p (c :: cs) then List.drop p.length (c :: cs)
    else c :: removeFirstL p cs

/-- Boolean test that `p` occurs somewhere in `s` as a contiguous segment
(the condition under which JS `s.replace(p, "")` changes `s`). -/
def occursL (p : List Char) : List Char → Bool
  | [] => startsWithL p []
  | c :: cs => startsWithL p (c :: cs) || occursL p cs

/-- `DebugServer._relativeToAbsolute`: template-literal concatenation
`` `${this._sourcemapPrefix}${path}` ``, with the prefix passed explicitly. -/
def _relativeToAbsolute (sourcemapPfx path : String) : String :=
  sourcemapPfx ++ path

/-- `DebugServer._absoluteToRelative`: `path.replace(this._sourcemapPrefix, "")`,
with the prefix passed explicitly. -/
def _absoluteToRelative (sourcemapPfx path : String) : String :=
  String.mk (removeFirstL sourcemapPfx.data path.data)

/-- The four environment-record kinds visible to `_getScopeName`, plus a tag
for a hypothetical unknown subclass of `EnvironmentRecord` (the `invariant
(false)` default branch).  `functionRec` carries
`$FunctionObject.__originalName` (`none` = absent). -/
inductive EnvRecord where
  | globalRec
  | functionRec (originalName : Option String)
  | declarativeRec
  | objectRec
  | otherRec
deriving DecidableEq, Repr

/-- Errors thrown by the core: `DebuggerError(errorType, message)` and failed
`invariant`s. -/
inductive DebugError where
  | debuggerError (errorType message : String)
  | invariantViolation (message : String)
deriving DecidableEq, Repr

/-- `DebugServer._getScopeName`, with the `instanceof` cascade transcribed as a
match on the record kind; the `||` default follows JS falsiness (absent or
empty `__originalName` ⇒ `"anonymous function"`). -/
def _getScopeName (envRec : EnvRecord) : Except DebugError String :=
  match envRec with
  | .globalRec => .ok "Global"
  | .functionRec originalName =>
    match originalName with
    | some s => if s = "" then .ok ("Local: " ++ "anonymous function") else .ok ("Local: " ++ s)
    | none => .ok ("Local: " ++ "anonymous function")
  | .declarativeRec => .ok "Block"
  | .objectRec => .ok "With"
  | .otherRec => .error (.invariantViolation "Invalid type of environment record")

/-- A lexical environment: an environment record plus a parent link; `root`
has parent `null`.  `processScopesCommand` walks the chain until the parent
link is null. -/
inductive LexicalEnv where
  | root (environmentRecord : EnvRecord)
  | node (environmentRecord : EnvRecord) (parent : LexicalEnv)
deriving DecidableEq, Repr

/-- The nodes visited by the `while (lexicalEnv)` walk, innermost first. -/
def chainNodes : LexicalEnv → List LexicalEnv
  | .root r => [.root r]
  | .node r p => .node r p :: chainNodes p

/-- The environment record of a lexical-environment node. -/
def envRecordOf : LexicalEnv → EnvRecord
  | .root r => r
  | .node r _ => r

/-- The `function` value of an `ExecutionContext` frame, reduced to its
`__originalName` field (`none` = absent). -/
structure FunValue where
  originalName : Option String
deriving DecidableEq, Repr

/-- An `ExecutionContext` on `realm.contextStack`, reduced to the fields the
debugger reads: `function`, `loc`, `lexicalEnvironment`. -/
structure EngineFrame where
  function : Option FunValue
  loc : Option SrcLoc
  lexicalEnvironment : LexicalEnv
deriving DecidableEq, Repr

/-- The session state of `DebugServer` that this core reads or writes:
the Last-Executed Marker (`_lastExecuted`, absent before the first located
checkpoint), the sourcemap prefix, and the realm's `contextStack`
(innermost frame last, as in the source). -/
structure ServerState where
  lastExecuted : Option SourceData
  sourcemapPfx : String
  contextStack : List EngineFrame
deriving DecidableEq, Repr

/-- An outbound `Stackframe`: `{id, functionName, fileName, line, column}`. -/
structure Stackframe where
  id : Nat
  functionName : String
  fileName : String
  line : Nat
  column : Nat
deriving DecidableEq, Repr

/-- An outbound `Scope`: `{name, variablesReference, expensive}`. -/
structure Scope where
  name : String
  variablesReference : Nat
  expensive : Bool
deriving DecidableEq, Repr

/-- A breakpoint entry of a breakpoint-bearing request. -/
structure BreakpointArg where
  filePath : String
  line : Nat
  column : Nat
  enabled : Bool
deriving DecidableEq, Repr

/-- The batch-acknowledgment kinds (`BREAKPOINT_*_ACKNOWLEDGE`). -/
inductive AckKind where
  | add
  | remove
  | enable
  | disable
deriving DecidableEq, Repr

/-- Step directions accepted by `SteppingManager.processStepCommand`. -/
inductive StepDirection where
  | stepIn
  | stepOver
  | stepOut
deriving DecidableEq, Repr

/-- The command kinds of `DebugMessage`; `unknown` stands for any string that
is none of the recognized command constants (the `default` branch). -/
inductive Command where
  | breakpointAdd
  | breakpointRemove
  | breakpointEnable
  | breakpointDisable
  | run
  | stackframes
  | scopes
  | variables
  | stepInto
  | stepOver
  | stepOut
  | evaluate
  | unknown (name : String)
deriving DecidableEq, Repr

/-- The `kind`-tagged argument variants of a `DebuggerRequest`. -/
inductive RequestArgs where
  | breakpointArgs (breakpoints : List BreakpointArg)
  | runArgs
  | stackframeArgs
  | scopesArgs (frameId : Int)
  | variablesArgs (variablesReference : Nat)
  | evaluateArgs (frameId : Int) (expression : String)
deriving DecidableEq, Repr

/-- A `DebuggerRequest`: `{id, command, arguments}`. -/
structure Request where
  id : Nat
  command : Command
  arguments : RequestArgs
deriving DecidableEq, Repr

/-- Observable effects of the core: every outbound channel message, every
collaborator call, and entry into the command loop.  `sendStopped` records
`sendStoppedResponse(reason, filePath, line, column, message?)`. -/
inductive Event where
  | consultSteppers
  | consultBreakpoints
  | consultArbiter
  | sendStopped (reason filePath : String) (line column : Nat) (message : Option String)
  | sendBreakpointAck (ack : AckKind) (requestID : Nat) (breakpoints : List BreakpointArg)
  | sendStackframes (requestID : Nat) (frames : List Stackframe)
  | sendScopes (requestID : Nat) (scopes : List Scope)
  | sendVariables (requestID : Nat) (variablesReference : Nat)
  | sendEvaluate (requestID : Nat) (frameId : Int) (expression : String)
  | registerStep (direction : StepDirection) (origin : SrcLoc)
  | cleanVariables
  | enterLoop (loc : Option SrcLoc)
deriving DecidableEq, Repr

/-- The external collaborators, modelled as oracles: the steppers returned by
`SteppingManager.getAndDeleteCompletedSteppers`, the breakpoint returned by
`BreakpointManager.getStoppableBreakpoint`, the reason returned by
`StopEventManager.getDebuggeeStopReason`, and the handle returned by
`VariableManager.getReferenceForValue`.  A stoppable object is abstracted to a
tag, a stop reason to a string. -/
structure Oracles where
  getAndDeleteCompletedSteppers : BNode → List Nat
  getStoppableBreakpoint : BNode → Option Nat
  getDebuggeeStopReason : BNode → List Nat → Option String
  getReferenceForValue : LexicalEnv → Nat

/-- `DebugServer._checkAndUpdateLastExecuted`, returning the boolean result
together with the updated state.  `ast.loc && ast.loc.source` follows JS
truthiness (`""` is falsy). -/
def _checkAndUpdateLastExecuted (st : ServerState) (ast : BNode) : Bool × ServerState :=
  match ast.loc with
  | some loc =>
    match loc.source with
    | some filePath =>
      if filePath = "" then (false, st)
      else
        let line := loc.start.line
        let column := loc.start.column
        let stackSize := st.contextStack.length
        match st.lastExecuted with
        | some last =>
          if filePath = last.filePath ∧ line = last.line ∧ column = last.column ∧
              stackSize = last.stackSize then
            (false, st)
          else
            (true, { st with lastExecuted := some ⟨filePath, line, column, stackSize⟩ })
        | none => (true, { st with lastExecuted := some ⟨filePath, line, column, stackSize⟩ })
    | none => (false, st)
  | none => (false, st)

/-- `DebugServer._getFrameLocation`: defaults `("unknown", 0, 0)` unless the
location exists and its source is truthy. -/
def _getFrameLocation (loc : Option SrcLoc) : String × Nat × Nat :=
  match loc with
  | some l =>
    match l.source with
    | some s => if s = "" then ("unknown", 0, 0) else (s, l.start.line, l.start.column)
    | none => ("unknown", 0, 0)
  | none => ("unknown", 0, 0)

/-- `frame.function && frame.function.__originalName` with the
`"(anonymous function)"` default, following JS falsiness of `""`. -/
def frameFunctionName (frame : EngineFrame) : String :=
  match frame.function with
  | some f =>
    match f.originalName with
    | some s => if s = "" then "(anonymous function)" else s
    | none => "(anonymous function)"
  | none => "(anonymous function)"

/-- The body of the `for` loop of `processStackframesCommand`, iterating over
the reversed context stack (index `i` of the source runs from the last stack
slot down to 0, so the reversed list is traversed front to back); `cur` is the
location triple carried across iterations, `k` the id of the next frame
(`contextStack.length - 1 - i`). -/
def framesAux (sourcemapPfx : String) : String × Nat × Nat → Nat → List EngineFrame → List Stackframe
  | _, _, [] => []
  | cur, k, frame :: rest =>
    { id := k,
      functionName := frameFunctionName frame,
      fileName := _relativeToAbsolute sourcemapPfx cur.1,
      line := cur.2.1,
      column := cur.2.2 } ::
    framesAux sourcemapPfx (_getFrameLocation frame.loc) (k + 1) rest

/-- `DebugServer.processStackframesCommand`, returning the batch of frames
sent by `sendStackframeResponse`. -/
def processStackframesCommand (st : ServerState) (astLoc : Option SrcLoc) : List Stackframe :=
  framesAux st.sourcemapPfx (_getFrameLocation astLoc) 0 st.contextStack.reverse

/-- The `while (lexicalEnv)` walk of `processScopesCommand`, building one
`Scope` per chain node; a failed `_getScopeName` invariant propagates. -/
def scopesOfChain (O : Oracles) : LexicalEnv → Except DebugError (List Scope)
  | .root r =>
    match _getScopeName r with
    | .ok n => .ok [{ name := n, variablesReference := O.getReferenceForValue (.root r), expensive := false }]
    | .error e => .error e
  | .node r p =>
    match _getScopeName r with
    | .ok n =>
      match scopesOfChain O p with
      | .ok rest =>
        .ok ({ name := n, variablesReference := O.getReferenceForValue (.node r p), expensive := false } :: rest)
      | .error e => .error e
    | .error e => .error e

/-- Placeholder frame for the (provably in-range) stack indexing of
`processScopesCommand`. -/
def dfltFrame : EngineFrame :=
  { function := none, loc := none, lexicalEnvironment := .root .globalRec }

/-- `DebugServer.processScopesCommand`, returning the scope batch sent by
`sendScopesResponse`, or the thrown error. -/
def processScopesCommand (O : Oracles) (st : ServerState) (frameId : Int) :
    Except DebugError (List Scope) :=
  if frameId < 0 ∨ (st.contextStack.length : Int) ≤ frameId then
    .error (.debuggerError "Invalid command" ("Invalid frame id for scopes request: " ++ toString frameId))
  else
    let stackIndex := st.contextStack.length - 1 - frameId.toNat
    let context := st.contextStack.getD stackIndex dfltFrame
    scopesOfChain O context.lexicalEnvironment

/-- The in-place mutation performed at the top of `processDebuggerCommand`:
`if (loc && loc.source) loc.source = this._absoluteToRelative(loc.source)`. -/
def locAfterDispatch (sourcemapPfx : String) : Option SrcLoc → Option SrcLoc
  | some l =>
    match l.source with
    | some s =>
      if s = "" then some l else some { l with source := some (_absoluteToRelative sourcemapPfx s) }
    | none => some l
  | none => none

deriving instance DecidableEq for Except

/-- Result of one `processDebuggerCommand` call: the (possibly mutated)
location object, the events emitted before returning or throwing, and either
the thrown error or the returned unblock boolean. -/
structure PDCResult where
  loc : Option SrcLoc
  events : List Event
  outcome : Except DebugError Bool
deriving DecidableEq, Repr

/-- `DebugServer.processDebuggerCommand`.  The breakpoint-path translation of
a breakpoint-bearing request happens before the `switch`, the `invariant`
checks on `args.kind` (and, for steps, on `loc`) throw, and the `default`
branch throws a `DebuggerError` naming the command. -/
def processDebuggerCommand (O : Oracles) (st : ServerState) (request : Request)
    (loc : Option SrcLoc) : PDCResult :=
  let requestID := request.id
  let loc2 := locAfterDispatch st.sourcemapPfx loc
  let args :=
    match request.arguments with
    | .breakpointArgs bps =>
      RequestArgs.breakpointArgs
        (bps.map fun (bp : BreakpointArg) =>
          { bp with filePath := _absoluteToRelative st.sourcemapPfx bp.filePath })
    | a => a
  match request.command with
  | .breakpointAdd =>
    match args with
    | .breakpointArgs bps => ⟨loc2, [.sendBreakpointAck .add requestID bps], .ok false⟩
    | _ => ⟨loc2, [], .error (.invariantViolation "args.kind is breakpoint")⟩
  | .breakpointRemove =>
    match args with
    | .breakpointArgs bps => ⟨loc2, [.sendBreakpointAck .remove requestID bps], .ok false⟩
    | _ => ⟨loc2, [], .error (.invariantViolation "args.kind is breakpoint")⟩
  | .breakpointEnable =>
    match args with
    | .breakpointArgs bps => ⟨loc2, [.sendBreakpointAck .enable requestID bps], .ok false⟩
    | _ => ⟨loc2, [], .error (.invariantViolation "args.kind is breakpoint")⟩
  | .breakpointDisable =>
    match args with
    | .breakpointArgs bps => ⟨loc2, [.sendBreakpointAck .disable requestID bps], .ok false⟩
    | _ => ⟨loc2, [], .error (.invariantViolation "args.kind is breakpoint")⟩
  | .run =>
    match args with
    | .runArgs => ⟨loc2, [.cleanVariables], .ok true⟩
    | _ => ⟨loc2, [], .error (.invariantViolation "args.kind is run")⟩
  | .stackframes =>
    match args with
    | .stackframeArgs =>
      ⟨loc2, [.sendStackframes requestID (processStackframesCommand st loc2)], .ok false⟩
    | _ => ⟨loc2, [], .error (.invariantViolation "args.kind is stackframe")⟩
  | .scopes =>
    match args with
    | .scopesArgs frameId =>
      match processScopesCommand O st frameId with
      | .ok scopes => ⟨loc2, [.sendScopes requestID scopes], .ok false⟩
      | .error e => ⟨loc2, [], .error e⟩
    | _ => ⟨loc2, [], .error (.invariantViolation "args.kind is scopes")⟩
  | .variables =>
    match args with
    | .variablesArgs ref => ⟨loc2, [.sendVariables requestID ref], .ok false⟩
    | _ => ⟨loc2, [], .error (.invariantViolation "args.kind is variables")⟩
  | .stepInto =>
    match loc2 with
    | some l => ⟨loc2, [.registerStep .stepIn l, .cleanVariables], .ok true⟩
    | none => ⟨loc2, [], .error (.invariantViolation "loc is not undefined")⟩
  | .stepOver =>
    match loc2 with
    | some l => ⟨loc2, [.registerStep .stepOver l, .cleanVariables], .ok true⟩
    | none => ⟨loc2, [], .error (.invariantViolation "loc is not undefined")⟩
  | .stepOut =>
    match loc2 with
    | some l => ⟨loc2, [.registerStep .stepOut l, .cleanVariables], .ok true⟩
    | none => ⟨loc2, [], .error (.invariantViolation "loc is not undefined")⟩
  | .evaluate =>
    match args with
    | .evaluateArgs frameId expression =>
      ⟨loc2, [.sendEvaluate requestID frameId expression], .ok false⟩
    | _ => ⟨loc2, [], .error (.invariantViolation "args.kind is evaluate")⟩
  | .unknown name =>
    ⟨loc2, [], .error (.debuggerError "Invalid command" ("Invalid command from adapter: " ++ name))⟩

/-- How a run of the `waitForRun` loop ended: a resume-class command returned
`true`; the pending-request list was exhausted while still waiting (modelling
the indefinite block on the channel); or a thrown error propagated out of the
loop. -/
inductive RunOutcome where
  | resumed
  | blocked
  | errored (e : DebugError)
deriving DecidableEq, Repr

/-- Result of `waitForRun` on a list of pending requests: the outcome, the
final value of the (mutated) location object, the events emitted, and the
requests left unread on the channel. -/
structure LoopResult where
  outcome : RunOutcome
  loc : Option SrcLoc
  events : List Event
  remaining : List Request
deriving DecidableEq, Repr

/-- `DebugServer.waitForRun`: read and process requests until one returns
`true`; a thrown error is not caught and leaves the loop at once. -/
def waitForRun (O : Oracles) (st : ServerState) : Option SrcLoc → List Request → LoopResult
  | loc, [] => ⟨.blocked, loc, [], []⟩
  | loc, request :: rest =>
    let p := processDebuggerCommand O st request loc
    match p.outcome with
    | .error e => ⟨.errored e, p.loc, p.events, rest⟩
    | .ok true => ⟨.resumed, p.loc, p.events, rest⟩
    | .ok false =>
      let r := waitForRun O st p.loc rest
      ⟨r.outcome, r.loc, p.events ++ r.events, r.remaining⟩

/-- How a `checkForActions` call ended: it returned without entering the
command loop; it entered the loop, which ended with the given outcome; or a
failed `invariant` inside it threw. -/
inductive CFAOutcome where
  | returned
  | entered (r : RunOutcome)
  | invariantFailed (message : String)
deriving DecidableEq, Repr

/-- Result of one `checkForActions` call. -/
structure CFAResult where
  state : ServerState
  events : List Event
  outcome : CFAOutcome
  remaining : List Request
deriving DecidableEq, Repr

/-- The stoppables gathered by `checkForActions`: completed steppers, plus the
stoppable breakpoint when present. -/
def gatherStoppables (O : Oracles) (ast : BNode) : List Nat :=
  let stoppables := O.getAndDeleteCompletedSteppers ast
  match O.getStoppableBreakpoint ast with
  | some breakpoint => stoppables ++ [breakpoint]
  | none => stoppables

/-- `DebugServer.checkForActions`, the execution checkpoint hook, given the
pending requests the channel will yield if the loop is entered. -/
def checkForActions (O : Oracles) (input : List Request) (st : ServerState) (ast : BNode) :
    CFAResult :=
  match _checkAndUpdateLastExecuted st ast with
  | (false, st2) => ⟨st2, [], .returned, input⟩
  | (true, st2) =>
    let consults : List Event := [.consultSteppers, .consultBreakpoints, .consultArbiter]
    match O.getDebuggeeStopReason ast (gatherStoppables O ast) with
    | none => ⟨st2, consults, .returned, input⟩
    | some reason =>
      match ast.loc with
      | some l =>
        match l.source with
        | some src =>
          if src = "" then ⟨st2, consults, .invariantFailed "ast.loc and ast.loc.source", input⟩
          else
            let absolutePath := _relativeToAbsolute st2.sourcemapPfx src
            let r := waitForRun O st2 (some l) input
            ⟨st2,
             consults ++
               [.sendStopped reason absolutePath l.start.line l.start.column none,
                .enterLoop (some l)] ++ r.events,
             .entered r.outcome, r.remaining⟩
        | none => ⟨st2, consults, .invariantFailed "ast.loc and ast.loc.source", input⟩
      | none => ⟨st2, consults, .invariantFailed "ast.loc and ast.loc.source", input⟩

/-- A sequence of consecutive checkpoint invocations, threading the session
state; each invocation is given an empty pending-request list. -/
def runCheckpoints (O : Oracles) (st : ServerState) : List BNode → ServerState × List Event
  | [] => (st, [])
  | ast :: rest =>
    let r := checkForActions O [] st ast
    let t := runCheckpoints O r.state rest
    (t.1, r.events ++ t.2)

/-- Recognizer of stopped notifications in an event trace. -/
def isStoppedEvent : Event → Bool
  | .sendStopped _ _ _ _ _ => true
  | _ => false

/-- Number of stopped notifications in an event trace. -/
def countStopped (events : List Event) : Nat :=
  (events.filter isStoppedEvent).length

/-- Placeholder stack frame for in-range `getD` indexing in statements. -/
def dfltStackframe : Stackframe :=
  { id := 0, functionName := "", fileName := "", line := 0, column := 0 }

/-- Placeholder scope for in-range `getD` indexing in statements. -/
def dfltScope : Scope :=
  { name := "", variablesReference := 0, expensive := false }

/-- The location triple displayed by outbound frame `i`: the carried-in triple
for frame 0, and the invocation site of the `i-1`-st frame of the reversed
stack (`fs`) for the others. -/
def displayedLocation (cur : String × Nat × Nat) (fs : List EngineFrame) : Nat → String × Nat × Nat
  | 0 => cur
  | i + 1 => _getFrameLocation (fs.getD i dfltFrame).loc

/-- Concrete oracles for the witnesses: one completed stepper, no breakpoint,
a fixed arbiter answer, handles all 7. -/
def wOracles : Oracles where
  getAndDeleteCompletedSteppers := fun _ => [4]
  getStoppableBreakpoint := fun _ => none
  getDebuggeeStopReason := fun _ stoppables => if stoppables.isEmpty then none else some "Step Into"
  getReferenceForValue := fun _ => 7

/-- Concrete oracles for the witnesses: no steppers, no breakpoints, arbiter
always silent. -/
def silentOracles : Oracles where
  getAndDeleteCompletedSteppers := fun _ => []
  getStoppableBreakpoint := fun _ => none
  getDebuggeeStopReason := fun _ _ => none
  getReferenceForValue := fun _ => 7

/-- A concrete engine frame for the witnesses. -/
def wFrame : EngineFrame :=
  { function := some { originalName := some "main" },
    loc := some { source := some "lib.js", start := { line := 3, column := 1 } },
    lexicalEnvironment := .node .declarativeRec (.root .globalRec) }

/-- A concrete session state for the witnesses. -/
def wState : ServerState :=
  { lastExecuted := none, sourcemapPfx := "/proj/", contextStack := [wFrame] }

/-- A concrete located AST node for the witnesses. -/
def wNode : BNode :=
  { loc := some { source := some "a.js", start := { line := 10, column := 2 } } }

/-
Theorems start below; claim theorems are interleaved with the helper lemmas
they need, but every declaration is at top level.
-/

theorem startsWithL_append (p t : List Char) : startsWithL p (p ++ t) = true := by
  induction p with
  | nil => rfl
  | cons c cs ih => simp [startsWithL, ih]

theorem startsWithL_iff (p s : List Char) :
    startsWithL p s = true ↔ ∃ t, s = p ++ t := by
  induction p generalizing s with
  | nil => simp [startsWithL]
  | cons c cs ih =>
    cases s with
    | nil =>
      simp [startsWithL]
    | cons d ds =>
      simp only [startsWithL, Bool.and_eq_true, beq_iff_eq, ih]
      constructor
      · rintro ⟨rfl, t, rfl⟩
        exact ⟨t, rfl⟩
      · rintro ⟨t, h⟩
        simp only [List.cons_append, List.cons.injEq] at h
        exact ⟨h.1.symm, t, h.2⟩

theorem drop_length_append (p t : List Char) : List.drop p.length (p ++ t) = t := by
  induction p with
  | nil => rfl
  | cons c cs ih => simp [ih]

theorem removeFirstL_append (p t : List Char) : removeFirstL p (p ++ t) = t := by
  cases p with
  | nil =>
    cases t with
    | nil => rfl
    | cons c cs => simp [removeFirstL, startsWithL]
  | cons c cs =>
    have hs : startsWithL (c :: cs) (c :: (cs ++ t)) = true := startsWithL_append (c :: cs) t
    simp [removeFirstL, hs, drop_length_append]

theorem removeFirstL_nil (p : List Char) : removeFirstL p [] = [] := by
  unfold removeFirstL
  split <;> simp

/-- If `p` occurs nowhere in `s`, removing its first occurrence is the
identity. -/
theorem removeFirstL_of_no_occurrence (p s : List Char)
    (h : ¬ ∃ pre post, s = pre ++ p ++ post) : removeFirstL p s = s := by
  induction s with
  | nil => exact removeFirstL_nil p
  | cons c cs ih =>
    have hns : startsWithL p (c :: cs) = false := by
      cases hsw : startsWithL p (c :: cs) with
      | false => rfl
      | true =>
        obtain ⟨t, ht⟩ := (startsWithL_iff p (c :: cs)).mp hsw
        exact absurd ⟨[], t, by simpa using ht⟩ h
    have hcs : ¬ ∃ pre post, cs = pre ++ p ++ post := by
      rintro ⟨pre, post, rfl⟩
      exact h ⟨c :: pre, post, by simp⟩
    simp [removeFirstL, hns, ih hcs]

theorem occursL_iff (p s : List Char) :
    occursL p s = true ↔ ∃ pre post, s = pre ++ p ++ post := by
  induction s with
  | nil =>
    simp only [occursL]
    rw [startsWithL_iff]
    constructor
    · rintro ⟨t, ht⟩
      have hp : p = [] := by
        cases p with
        | nil => rfl
        | cons c cs => simp at ht
      have ht2 : t = [] := by
        rw [hp] at ht
        simpa using ht
      exact ⟨[], [], by simp [hp, ht2]⟩
    · rintro ⟨pre, post, h⟩
      have hpre : pre = [] := by
        cases pre with
        | nil => rfl
        | cons c cs => simp at h
      have hp : p = [] := by
        rw [hpre] at h
        cases p with
        | nil => rfl
        | cons c cs => simp at h
      exact ⟨[], by simp [hp]⟩
  | cons c cs ih =>
    simp only [occursL, Bool.or_eq_true, ih]
    rw [startsWithL_iff]
    constructor
    · rintro (⟨t, ht⟩ | ⟨pre, post, h⟩)
      · exact ⟨[], t, by simpa using ht⟩
      · exact ⟨c :: pre, post, by simp [h]⟩
    · rintro ⟨pre, post, h⟩
      cases pre with
      | nil =>
        exact Or.inl ⟨post, by simpa using h⟩
      | cons d ds =>
        simp only [List.cons_append, List.cons.injEq] at h
        exact Or.inr ⟨ds, post, h.2⟩

/-- C3: under Information < Warning < RecoverableError < FatalError,
`shouldStopForSeverity` stops exactly when the severity is at or above the
configured threshold, and stopping is monotone in the threshold. -/
theorem shouldStopForSeverity_iff_rank (threshold severity lowerThreshold : Severity) :
    (shouldStopForSeverity threshold severity = true ↔
      sevRank threshold ≤ sevRank severity) ∧
    (sevRank lowerThreshold ≤ sevRank threshold →
      shouldStopForSeverity threshold severity = true →
      shouldStopForSeverity lowerThreshold severity = true) := by
  cases threshold <;> cases severity <;> cases lowerThreshold <;> decide

theorem shouldStopForSeverity_iff_rank_witness :
    sevRank .warning ≤ sevRank .recoverableError ∧
    shouldStopForSeverity .warning .fatalError = true :=
  ⟨by decide,
   (shouldStopForSeverity_iff_rank .recoverableError .fatalError .warning).2 (by decide)
     ((shouldStopForSeverity_iff_rank .recoverableError .fatalError .warning).1.mpr (by decide))⟩

/-- C4: `toRelative (toAbsolute P) = P` for every `P`, and
`toAbsolute (toRelative P) = P` whenever `P` starts with the prefix. -/
theorem path_round_trip (sourcemapPfx p : String) :
    _absoluteToRelative sourcemapPfx (_relativeToAbsolute sourcemapPfx p) = p ∧
    (startsWithL sourcemapPfx.data p.data = true →
      _relativeToAbsolute sourcemapPfx (_absoluteToRelative sourcemapPfx p) = p) := by
  constructor
  · apply String.ext
    show (removeFirstL sourcemapPfx.data (sourcemapPfx ++ p).data) = p.data
    rw [String.data_append, removeFirstL_append]
  · intro hsw
    obtain ⟨t, ht⟩ := (startsWithL_iff _ _).mp hsw
    apply String.ext
    show (sourcemapPfx ++ _absoluteToRelative sourcemapPfx p).data = p.data
    rw [String.data_append]
    show sourcemapPfx.data ++ removeFirstL sourcemapPfx.data p.data = p.data
    rw [ht, removeFirstL_append]

theorem path_round_trip_witness :
    startsWithL "/ab".data "/abc".data = true ∧
    _relativeToAbsolute "/ab" (_absoluteToRelative "/ab" "/abc") = "/abc" :=
  ⟨by decide, (path_round_trip "/ab" "/abc").2 (by decide)⟩

/-- C7: scope naming is total over the four record kinds — Global,
Local: name-or-anonymous, Block, With — and any other kind fails the
internal invariant. -/
theorem scope_name_total (s : String) :
    _getScopeName .globalRec = .ok "Global" ∧
    _getScopeName (.functionRec (some s)) =
      .ok ("Local: " ++ (if s = "" then "anonymous function" else s)) ∧
    _getScopeName (.functionRec none) = .ok ("Local: " ++ "anonymous function") ∧
    _getScopeName .declarativeRec = .ok "Block" ∧
    _getScopeName .objectRec = .ok "With" ∧
    _getScopeName .otherRec = .error (.invariantViolation "Invalid type of environment record") := by
  refine ⟨rfl, ?_, rfl, rfl, rfl, rfl⟩
  by_cases h : s = "" <;> simp [_getScopeName, h]

theorem framesAux_length (q : String) (cur : String × Nat × Nat) (k : Nat)
    (fs : List EngineFrame) : (framesAux q cur k fs).length = fs.length := by
  induction fs generalizing cur k with
  | nil => rfl
  | cons f rest ih => simp [framesAux, ih]

theorem displayedLocation_shift (cur : String × Nat × Nat) (f : EngineFrame)
    (fs : List EngineFrame) (i : Nat) :
    displayedLocation (_getFrameLocation f.loc) fs i =
      displayedLocation cur (f :: fs) (i + 1) := by
  cases i with
  | zero => rfl
  | succ j => rfl

theorem framesAux_getD (q : String) (cur : String × Nat × Nat) (k : Nat)
    (fs : List EngineFrame) (i : Nat) (hi : i < fs.length) :
    (framesAux q cur k fs).getD i dfltStackframe =
      { id := k + i,
        functionName := frameFunctionName (fs.getD i dfltFrame),
        fileName := _relativeToAbsolute q (displayedLocation cur fs i).1,
        line := (displayedLocation cur fs i).2.1,
        column := (displayedLocation cur fs i).2.2 } := by
  induction fs generalizing cur k i with
  | nil => exact absurd hi (by simp)
  | cons f rest ih =>
    cases i with
    | zero => simp [framesAux, displayedLocation]
    | succ j =>
      have hj : j < rest.length := by simpa using hi
      have h2 := ih (_getFrameLocation f.loc) (k + 1) j hj
      rw [displayedLocation_shift cur f rest j] at h2
      show (framesAux q (_getFrameLocation f.loc) (k + 1) rest).getD j dfltStackframe = _
      rw [h2]
      simp [Stackframe.mk.injEq]
      omega

theorem framesAux_map_id (q : String) (cur : String × Nat × Nat) (k : Nat)
    (fs : List EngineFrame) :
    (framesAux q cur k fs).map Stackframe.id = List.range' k fs.length := by
  induction fs generalizing cur k with
  | nil => rfl
  | cons f rest ih => simp [framesAux, List.range'_succ, ih]

theorem getD_reverse_of_lt (l : List EngineFrame) (j : Nat) (hj : j < l.length) :
    l.reverse.getD j dfltFrame = l.getD (l.length - 1 - j) dfltFrame := by
  rw [List.getD_eq_getElem?_getD, List.getD_eq_getElem?_getD, List.getElem?_reverse hj]

/-- C5: a stack-frames request over a depth-N stack yields exactly N frames,
innermost first with ids 0..N-1; frame 0 displays the checkpoint's current
location when its source is known and the ("unknown", 0, 0) sentinel
otherwise, and frame i (i ≥ 1) displays the invocation site recorded on the
engine frame one stack slot closer to the top; outbound file names are
absolutized. -/
theorem c5_stackframes (st : ServerState) (astLoc : Option SrcLoc) (i : Nat)
    (hi : i < st.contextStack.length) :
    (processStackframesCommand st astLoc).length = st.contextStack.length ∧
    (processStackframesCommand st astLoc).map Stackframe.id =
      List.range st.contextStack.length ∧
    (processStackframesCommand st astLoc).getD i dfltStackframe =
      { id := i,
        functionName := frameFunctionName (st.contextStack.reverse.getD i dfltFrame),
        fileName := _relativeToAbsolute st.sourcemapPfx
          (displayedLocation (_getFrameLocation astLoc) st.contextStack.reverse i).1,
        line := (displayedLocation (_getFrameLocation astLoc) st.contextStack.reverse i).2.1,
        column :=
          (displayedLocation (_getFrameLocation astLoc) st.contextStack.reverse i).2.2 } ∧
    (1 ≤ i →
      displayedLocation (_getFrameLocation astLoc) st.contextStack.reverse i =
        _getFrameLocation
          (st.contextStack.getD (st.contextStack.length - i) dfltFrame).loc) := by
  refine ⟨?_, ?_, ?_, ?_⟩
  · rw [processStackframesCommand, framesAux_length, List.length_reverse]
  · rw [processStackframesCommand, framesAux_map_id, List.length_reverse,
      List.range_eq_range']
  · have hrev : i < st.contextStack.reverse.length := by simpa using hi
    simpa using framesAux_getD st.sourcemapPfx (_getFrameLocation astLoc) 0
      st.contextStack.reverse i hrev
  · intro h1
    obtain ⟨j, rfl⟩ : ∃ j, i = j + 1 := ⟨i - 1, by omega⟩
    have hj : j < st.contextStack.length := by omega
    have hjr : j < st.contextStack.reverse.length := by simpa using hj
    have : displayedLocation (_getFrameLocation astLoc) st.contextStack.reverse (j + 1) =
        _getFrameLocation (st.contextStack.reverse.getD j dfltFrame).loc := rfl
    rw [this, getD_reverse_of_lt _ j hj]
    have hidx : st.contextStack.length - 1 - j = st.contextStack.length - (j + 1) := by omega
    rw [hidx]

theorem c5_stackframes_witness :
    0 < wState.contextStack.length ∧
    (processStackframesCommand wState wNode.loc).length = wState.contextStack.length :=
  ⟨by decide, (c5_stackframes wState wNode.loc 0 (by decide)).1⟩

theorem _getScopeName_ok_of_valid (r : EnvRecord) (h : r ≠ .otherRec) :
    ∃ n, _getScopeName r = .ok n := by
  cases r with
  | globalRec => exact ⟨_, rfl⟩
  | functionRec o =>
    cases o with
    | some s =>
      by_cases hs : s = ""
      · exact ⟨"Local: " ++ "anonymous function", by simp [_getScopeName, hs]⟩
      · exact ⟨"Local: " ++ s, by simp [_getScopeName, hs]⟩
    | none => exact ⟨_, rfl⟩
  | declarativeRec => exact ⟨_, rfl⟩
  | objectRec => exact ⟨_, rfl⟩
  | otherRec => exact absurd rfl h

theorem scopesOfChain_spec (O : Oracles) (env : LexicalEnv)
    (hvalid : ∀ e ∈ chainNodes env, envRecordOf e ≠ .otherRec) :
    ∃ scopes, scopesOfChain O env = .ok scopes ∧
      scopes.length = (chainNodes env).length ∧
      ∀ i, i < scopes.length →
        ∃ n, _getScopeName (envRecordOf ((chainNodes env).getD i (.root .globalRec))) = .ok n ∧
          scopes.getD i dfltScope =
            { name := n,
              variablesReference :=
                O.getReferenceForValue ((chainNodes env).getD i (.root .globalRec)),
              expensive := false } := by
  induction env with
  | root r =>
    have hr : r ≠ .otherRec := hvalid (.root r) (by simp [chainNodes])
    obtain ⟨n, hn⟩ := _getScopeName_ok_of_valid r hr
    refine ⟨[Scope.mk n (O.getReferenceForValue (.root r)) false],
      by simp [scopesOfChain, hn], by simp [chainNodes], ?_⟩
    intro i hi
    simp at hi
    subst hi
    exact ⟨n, by simpa [chainNodes, envRecordOf] using hn, rfl⟩
  | node r p ih =>
    have hr : r ≠ .otherRec := hvalid (.node r p) (by simp [chainNodes])
    obtain ⟨n, hn⟩ := _getScopeName_ok_of_valid r hr
    have hrest : ∀ e ∈ chainNodes p, envRecordOf e ≠ .otherRec := by
      intro e he
      exact hvalid e (by simp [chainNodes, he])
    obtain ⟨rest, hre, hlen, hidx⟩ := ih hrest
    refine ⟨Scope.mk n (O.getReferenceForValue (.node r p)) false :: rest,
      by simp [scopesOfChain, hn, hre], by simp [chainNodes, hlen], ?_⟩
    intro i hi
    cases i with
    | zero => exact ⟨n, by simpa [chainNodes, envRecordOf] using hn, rfl⟩
    | succ j =>
      have hj : j < rest.length := by simpa using hi
      obtain ⟨m, hm1, hm2⟩ := hidx j hj
      exact ⟨m, by simpa [chainNodes] using hm1, by simpa [chainNodes] using hm2⟩

/-- C6: a scopes request with frameId out of [0, N) fails with the
invalid-frame-id DebuggerError and no scopes response is sent; an in-range
frameId selects call-stack slot N−1−frameId and yields one scope per node of
that frame's lexical-environment chain, walked innermost to outermost. -/
theorem c6_scopes (O : Oracles) (st : ServerState) (frameId : Int) (rid : Nat)
    (loc : Option SrcLoc) (env : LexicalEnv)
    (henv : env = (st.contextStack.getD
      (st.contextStack.length - 1 - frameId.toNat) dfltFrame).lexicalEnvironment) :
    ((frameId < 0 ∨ (st.contextStack.length : Int) ≤ frameId) →
      processScopesCommand O st frameId =
        .error (.debuggerError "Invalid command"
          ("Invalid frame id for scopes request: " ++ toString frameId)) ∧
      processDebuggerCommand O st ⟨rid, .scopes, .scopesArgs frameId⟩ loc =
        ⟨locAfterDispatch st.sourcemapPfx loc, [],
         .error (.debuggerError "Invalid command"
           ("Invalid frame id for scopes request: " ++ toString frameId))⟩) ∧
    ((0 : Int) ≤ frameId → frameId < (st.contextStack.length : Int) →
      (∀ e ∈ chainNodes env, envRecordOf e ≠ .otherRec) →
      ∃ scopes, processScopesCommand O st frameId = .ok scopes ∧
        scopes.length = (chainNodes env).length ∧
        ∀ i, i < scopes.length →
          ∃ n, _getScopeName (envRecordOf ((chainNodes env).getD i (.root .globalRec))) = .ok n ∧
            scopes.getD i dfltScope =
              { name := n,
                variablesReference :=
                  O.getReferenceForValue ((chainNodes env).getD i (.root .globalRec)),
                expensive := false }) := by
  constructor
  · intro hout
    have hcond : (frameId < 0 ∨ (st.contextStack.length : Int) ≤ frameId) = True := by
      simp [hout]
    constructor
    · simp [processScopesCommand, hout]
    · simp [processDebuggerCommand, processScopesCommand, hout]
  · intro h0 hlt hvalid
    have hcond : ¬ (frameId < 0 ∨ (st.contextStack.length : Int) ≤ frameId) := by
      push_neg
      exact ⟨by omega, by omega⟩
    have : processScopesCommand O st frameId = scopesOfChain O env := by
      simp [processScopesCommand, hcond, henv]
    rw [this]
    exact scopesOfChain_spec O env hvalid

theorem c6_scopes_witness :
    (0 : Int) < (wState.contextStack.length : Int) ∧
    ∃ scopes, processScopesCommand wOracles wState 0 = .ok scopes ∧
      scopes.length = (chainNodes wFrame.lexicalEnvironment).length := by
  refine ⟨by decide, ?_⟩
  obtain ⟨scopes, h1, h2, _⟩ :=
    (c6_scopes wOracles wState 0 1 none wFrame.lexicalEnvironment rfl).2
      (by decide) (by decide) (by decide)
  exact ⟨scopes, h1, h2⟩

theorem countStopped_append (a b : List Event) :
    countStopped (a ++ b) = countStopped a + countStopped b := by
  simp [countStopped, List.filter_append]

theorem pdc_countStopped (O : Oracles) (st : ServerState) (request : Request)
    (loc : Option SrcLoc) :
    countStopped (processDebuggerCommand O st request loc).events = 0 := by
  obtain ⟨rid, cmd, args⟩ := request
  cases cmd <;> cases args <;>
    simp only [processDebuggerCommand] <;>
    (try split) <;>
    simp [countStopped, isStoppedEvent]

theorem waitForRun_countStopped (O : Oracles) (st : ServerState) (loc : Option SrcLoc)
    (input : List Request) : countStopped (waitForRun O st loc input).events = 0 := by
  induction input generalizing loc with
  | nil => rfl
  | cons request rest ih =>
    have hp := pdc_countStopped O st request loc
    simp only [waitForRun]
    split <;> simp [countStopped_append, hp, ih]

theorem dedup_fields (st : ServerState) (ast : BNode) :
    (_checkAndUpdateLastExecuted st ast).2.sourcemapPfx = st.sourcemapPfx ∧
    (_checkAndUpdateLastExecuted st ast).2.contextStack = st.contextStack := by
  unfold _checkAndUpdateLastExecuted
  repeat' (first | split | dsimp only)
  all_goals exact ⟨rfl, rfl⟩

theorem cfa_state_eq (O : Oracles) (input : List Request) (st : ServerState) (ast : BNode) :
    (checkForActions O input st ast).state = (_checkAndUpdateLastExecuted st ast).2 := by
  unfold checkForActions
  repeat' split
  all_goals simp_all

theorem dedup_true_marker (st : ServerState) (ast : BNode) (f : String) (l c : Nat)
    (hloc : ast.loc = some ⟨some f, ⟨l, c⟩⟩) (hf : f ≠ "") :
    (_checkAndUpdateLastExecuted st ast).2.lastExecuted =
      some ⟨f, l, c, st.contextStack.length⟩ := by
  simp only [_checkAndUpdateLastExecuted, hloc]
  simp only [hf, if_false]
  cases hlast : st.lastExecuted with
  | none => rfl
  | some last =>
    dsimp only
    by_cases heq : f = last.filePath ∧ l = last.line ∧ c = last.column ∧
        st.contextStack.length = last.stackSize
    · have hlast2 : last = ⟨f, l, c, st.contextStack.length⟩ := by
        obtain ⟨h1, h2, h3, h4⟩ := heq
        cases last
        simp_all
      rw [if_pos heq]
      show st.lastExecuted = some ⟨f, l, c, st.contextStack.length⟩
      rw [hlast, hlast2]
    · rw [if_neg heq]

theorem cfa_noop_of_duplicate (O : Oracles) (input : List Request) (st : ServerState)
    (ast : BNode) (f : String) (l c : Nat)
    (hloc : ast.loc = some ⟨some f, ⟨l, c⟩⟩) (hf : f ≠ "")
    (hlast : st.lastExecuted = some ⟨f, l, c, st.contextStack.length⟩) :
    checkForActions O input st ast = ⟨st, [], .returned, input⟩ := by
  have h1 : _checkAndUpdateLastExecuted st ast = (false, st) := by
    simp [_checkAndUpdateLastExecuted, hloc, hf, hlast]
  simp [checkForActions, h1]

/-- C10: a checkpoint on a node with no location or no (truthy) source
identifier is a complete no-op: no events (so no collaborator consulted, no
notification), no loop entry, state (so the marker) unchanged, input
unread. -/
theorem c10_unlocated_noop (O : Oracles) (input : List Request) (st : ServerState)
    (ast : BNode)
    (h : ast.loc = none ∨ ∃ l, ast.loc = some l ∧ (l.source = none ∨ l.source = some "")) :
    checkForActions O input st ast = ⟨st, [], .returned, input⟩ := by
  have h1 : _checkAndUpdateLastExecuted st ast = (false, st) := by
    rcases h with h | ⟨l, hl, hsrc | hsrc⟩
    · simp [_checkAndUpdateLastExecuted, h]
    · simp [_checkAndUpdateLastExecuted, hl, hsrc]
    · simp [_checkAndUpdateLastExecuted, hl, hsrc]
  simp [checkForActions, h1]

theorem c10_unlocated_noop_witness :
    (BNode.mk none).loc = none ∧
    checkForActions silentOracles [] wState (BNode.mk none) = ⟨wState, [], .returned, []⟩ :=
  ⟨rfl, c10_unlocated_noop silentOracles [] wState (BNode.mk none) (Or.inl rfl)⟩

/-- C1: on a non-duplicate located checkpoint, a returned stop reason yields
exactly one stopped notification carrying the reason, the absolutized source
and the start line/column, followed by re-entry into the command loop with
this location; no reason yields no notification and no blocking. -/
theorem c1_checkpoint (O : Oracles) (input : List Request) (st : ServerState)
    (ast : BNode) (l : SrcLoc) (src : String)
    (hl : ast.loc = some l) (hs : l.source = some src) (hne : src ≠ "")
    (hd : (_checkAndUpdateLastExecuted st ast).1 = true) :
    (∀ reason, O.getDebuggeeStopReason ast (gatherStoppables O ast) = some reason →
      (checkForActions O input st ast).events =
        [.consultSteppers, .consultBreakpoints, .consultArbiter,
         .sendStopped reason (_relativeToAbsolute st.sourcemapPfx src)
           l.start.line l.start.column none,
         .enterLoop (some l)] ++
        (waitForRun O (_checkAndUpdateLastExecuted st ast).2 (some l) input).events ∧
      countStopped (checkForActions O input st ast).events = 1 ∧
      (checkForActions O input st ast).outcome =
        .entered (waitForRun O (_checkAndUpdateLastExecuted st ast).2 (some l) input).outcome) ∧
    (O.getDebuggeeStopReason ast (gatherStoppables O ast) = none →
      countStopped (checkForActions O input st ast).events = 0 ∧
      (checkForActions O input st ast).outcome = .returned) := by
  have hpfx0 := (dedup_fields st ast).1
  rcases hsplit : _checkAndUpdateLastExecuted st ast with ⟨b, st2⟩
  have hb : b = true := by rw [hsplit] at hd; exact hd
  subst hb
  rw [hsplit] at hpfx0
  have hpfx : st2.sourcemapPfx = st.sourcemapPfx := hpfx0
  constructor
  · intro reason hreason
    have hres : checkForActions O input st ast =
        ⟨st2,
         [.consultSteppers, .consultBreakpoints, .consultArbiter] ++
           [.sendStopped reason (_relativeToAbsolute st2.sourcemapPfx src)
              l.start.line l.start.column none,
            .enterLoop (some l)] ++ (waitForRun O st2 (some l) input).events,
         .entered (waitForRun O st2 (some l) input).outcome,
         (waitForRun O st2 (some l) input).remaining⟩ := by
      simp [checkForActions, hsplit, hreason, hl, hs, hne]
    rw [hres]
    refine ⟨by simp [hpfx], ?_, rfl⟩
    show countStopped (_ ++ _) = 1
    rw [countStopped_append, waitForRun_countStopped]
    simp [countStopped, isStoppedEvent, List.filter]
  · intro hnone
    have hres : checkForActions O input st ast =
        ⟨st2, [.consultSteppers, .consultBreakpoints, .consultArbiter], .returned, input⟩ := by
      simp [checkForActions, hsplit, hnone]
    rw [hres]
    exact ⟨by simp [countStopped, isStoppedEvent], rfl⟩

theorem c1_checkpoint_witness :
    (_checkAndUpdateLastExecuted wState wNode).1 = true ∧
    (checkForActions wOracles [] wState wNode).events =
      [.consultSteppers, .consultBreakpoints, .consultArbiter,
       .sendStopped "Step Into" "/proj/a.js" 10 2 none,
       .enterLoop (some ⟨some "a.js", ⟨10, 2⟩⟩)] := by
  refine ⟨by decide, ?_⟩
  have h := (c1_checkpoint wOracles [] wState wNode ⟨some "a.js", ⟨10, 2⟩⟩ "a.js"
      rfl rfl (by decide) (by decide)).1 "Step Into" rfl
  rw [h.1]
  decide

theorem cfa_countStopped_le_one (O : Oracles) (input : List Request) (st : ServerState)
    (ast : BNode) : countStopped (checkForActions O input st ast).events ≤ 1 := by
  unfold checkForActions
  repeat' split
  all_goals
    first
      | (simp [countStopped, isStoppedEvent, List.filter]; done)
      | (rw [countStopped_append, countStopped_append, waitForRun_countStopped]
         simp [countStopped, isStoppedEvent, List.filter])

theorem runCheckpoints_noop (O : Oracles) (st : ServerState) (ast : BNode) (f : String)
    (l c : Nat) (n : Nat)
    (hloc : ast.loc = some ⟨some f, ⟨l, c⟩⟩) (hf : f ≠ "")
    (hlast : st.lastExecuted = some ⟨f, l, c, st.contextStack.length⟩) :
    runCheckpoints O st (List.replicate n ast) = (st, []) := by
  induction n with
  | zero => rfl
  | succ m ih =>
    rw [List.replicate_succ]
    simp only [runCheckpoints,
      cfa_noop_of_duplicate O [] st ast f l c hloc hf hlast, ih]
    rfl

/-- C2: over a run of identical located checkpoints at unchanged stack depth,
the whole run behaves like its first invocation alone (so at most one stopped
notification), after which the marker holds exactly (file, line, column,
depth); and any located checkpoint overwrites the marker wholesale with its
own four components. -/
theorem c2_dedup_run (O : Oracles) (st : ServerState) (ast : BNode) (f : String)
    (l c n : Nat) (hloc : ast.loc = some ⟨some f, ⟨l, c⟩⟩) (hf : f ≠ "") :
    runCheckpoints O st (ast :: List.replicate n ast) =
      ((checkForActions O [] st ast).state, (checkForActions O [] st ast).events) ∧
    (checkForActions O [] st ast).state.lastExecuted =
      some ⟨f, l, c, st.contextStack.length⟩ ∧
    countStopped (runCheckpoints O st (ast :: List.replicate n ast)).2 ≤ 1 ∧
    (∀ (st3 : ServerState) (ast2 : BNode) (f2 : String) (l2 c2 : Nat),
      ast2.loc = some ⟨some f2, ⟨l2, c2⟩⟩ → f2 ≠ "" →
      (_checkAndUpdateLastExecuted st3 ast2).2.lastExecuted =
        some ⟨f2, l2, c2, st3.contextStack.length⟩) := by
  have hstate := cfa_state_eq O [] st ast
  have hmarker : (checkForActions O [] st ast).state.lastExecuted =
      some ⟨f, l, c, st.contextStack.length⟩ := by
    rw [hstate]
    exact dedup_true_marker st ast f l c hloc hf
  have hstack : (checkForActions O [] st ast).state.contextStack = st.contextStack := by
    rw [hstate]
    exact (dedup_fields st ast).2
  have hrun : runCheckpoints O st (ast :: List.replicate n ast) =
      ((checkForActions O [] st ast).state, (checkForActions O [] st ast).events) := by
    have hnoop := runCheckpoints_noop O (checkForActions O [] st ast).state ast f l c n
      hloc hf (by rw [hmarker, hstack])
    simp only [runCheckpoints, hnoop, List.append_nil]
  refine ⟨hrun, hmarker, ?_, ?_⟩
  · rw [hrun]
    exact cfa_countStopped_le_one O [] st ast
  · intro st3 ast2 f2 l2 c2 hloc2 hf2
    exact dedup_true_marker st3 ast2 f2 l2 c2 hloc2 hf2

theorem c2_dedup_run_witness :
    wNode.loc = some ⟨some "a.js", ⟨10, 2⟩⟩ ∧
    runCheckpoints wOracles wState (wNode :: List.replicate 3 wNode) =
      ((checkForActions wOracles [] wState wNode).state,
       (checkForActions wOracles [] wState wNode).events) :=
  ⟨rfl, (c2_dedup_run wOracles wState wNode "a.js" 10 2 3 rfl (by decide)).1⟩

/-- C8 (amended): an unrecognized command makes the dispatcher throw a
protocol DebuggerError naming the command; the error is not caught, so it
propagates out of the blocking loop, which stops without reading the
remaining requests. -/
theorem c8_unknown_command (O : Oracles) (st : ServerState) (loc : Option SrcLoc)
    (s : String) (rid : Nat) (args : RequestArgs) (rest : List Request) :
    waitForRun O st loc (⟨rid, .unknown s, args⟩ :: rest) =
      ⟨.errored (.debuggerError "Invalid command" ("Invalid command from adapter: " ++ s)),
       locAfterDispatch st.sourcemapPfx loc, [], rest⟩ := by
  cases args <;> simp [waitForRun, processDebuggerCommand]

theorem c8_unknown_command_witness :
    waitForRun silentOracles wState none [⟨7, .unknown "zap", .runArgs⟩] =
      ⟨.errored (.debuggerError "Invalid command"
        ("Invalid command from adapter: " ++ "zap")), none, [], []⟩ :=
  c8_unknown_command silentOracles wState none "zap" 7 .runArgs []

/-- C8 counterexample: with an unrecognized command followed by a queued run
request, the loop ends in the error and the run request is left unread and
unprocessed — the command loop does not continue. -/
theorem c8_counterexample :
    (waitForRun silentOracles wState none
        [⟨1, .unknown "badCmd", .runArgs⟩, ⟨2, .run, .runArgs⟩]).outcome =
      .errored (.debuggerError "Invalid command"
        ("Invalid command from adapter: " ++ "badCmd")) ∧
    (waitForRun silentOracles wState none
        [⟨1, .unknown "badCmd", .runArgs⟩, ⟨2, .run, .runArgs⟩]).remaining =
      [⟨2, .run, .runArgs⟩] ∧
    (waitForRun silentOracles wState none
        [⟨1, .unknown "badCmd", .runArgs⟩, ⟨2, .run, .runArgs⟩]).events = [] :=
  ⟨rfl, rfl, rfl⟩

theorem pdc_loc_eq (O : Oracles) (st : ServerState) (request : Request)
    (loc : Option SrcLoc) :
    (processDebuggerCommand O st request loc).loc = locAfterDispatch st.sourcemapPfx loc := by
  obtain ⟨rid, cmd, args⟩ := request
  cases cmd <;> cases args <;>
    simp only [processDebuggerCommand] <;>
    (try split) <;>
    rfl

/-- C9 (amended): processing any debugger request rewrites the current
location's source in place by absolute-to-relative translation (removal of
the first occurrence of the sourcemap prefix) and leaves the start line and
column unchanged; the source value survives unchanged whenever the prefix
occurs nowhere in it. -/
theorem c9_location_mutation (O : Oracles) (st : ServerState) (request : Request)
    (l : SrcLoc) :
    (processDebuggerCommand O st request (some l)).loc =
      locAfterDispatch st.sourcemapPfx (some l) ∧
    (∀ l2, locAfterDispatch st.sourcemapPfx (some l) = some l2 → l2.start = l.start) ∧
    (∀ s, l.source = some s →
      occursL st.sourcemapPfx.data s.data = false →
      locAfterDispatch st.sourcemapPfx (some l) = some l) := by
  refine ⟨pdc_loc_eq O st request (some l), ?_, ?_⟩
  · intro l2 h2
    obtain ⟨src, pos⟩ := l
    cases src with
    | none =>
      have h3 : l2 = ⟨none, pos⟩ := by
        simpa [locAfterDispatch] using h2.symm
      rw [h3]
    | some s =>
      by_cases hs : s = ""
      · have h3 : l2 = ⟨some s, pos⟩ := by
          simpa [locAfterDispatch, hs] using h2.symm
        rw [h3]
      · have h3 : l2 = ⟨some (_absoluteToRelative st.sourcemapPfx s), pos⟩ := by
          simpa [locAfterDispatch, hs] using h2.symm
        rw [h3]
  · intro s hsrc hocc
    have hno : ¬ ∃ pre post, s.data = pre ++ st.sourcemapPfx.data ++ post := by
      intro hex
      rw [← occursL_iff] at hex
      rw [hocc] at hex
      exact Bool.false_ne_true hex
    obtain ⟨src, pos⟩ := l
    simp only at hsrc
    subst hsrc
    by_cases hs : s = ""
    · simp [locAfterDispatch, hs]
    · have hid : _absoluteToRelative st.sourcemapPfx s = s := by
        apply String.ext
        show removeFirstL st.sourcemapPfx.data s.data = s.data
        exact removeFirstL_of_no_occurrence _ _ (by
          rintro ⟨pre, post, hsplit⟩
          exact hno ⟨pre, post, hsplit⟩)
      simp [locAfterDispatch, hs, hid]

theorem c9_location_mutation_witness :
    occursL wState.sourcemapPfx.data "lib.js".data = false ∧
    locAfterDispatch wState.sourcemapPfx (some ⟨some "lib.js", ⟨3, 1⟩⟩) =
      some ⟨some "lib.js", ⟨3, 1⟩⟩ :=
  ⟨by decide,
   (c9_location_mutation silentOracles wState ⟨1, .run, .runArgs⟩
      ⟨some "lib.js", ⟨3, 1⟩⟩).2.2 "lib.js" rfl (by decide)⟩

/-- C9 counterexample: processing a run request at sourcemap prefix "/x/"
while paused at a location with source "a/x/b" overwrites that location's
source with "ab": the location record is not immutable. -/
theorem c9_counterexample :
    (processDebuggerCommand silentOracles
        { lastExecuted := none, sourcemapPfx := "/x/", contextStack := [] }
        ⟨1, .run, .runArgs⟩
        (some ⟨some "a/x/b", ⟨10, 2⟩⟩)).loc ≠ some ⟨some "a/x/b", ⟨10, 2⟩⟩ := by
  decide
